import Mathlib

set_option autoImplicit false
set_option maxRecDepth 8000

/-!
Shallow embedding of the ingestion pipeline of the search_dir repository:
the file discovery service (change detector), the durable work queue
messages, the batch consumer of the main service, the identity scheme of
the indexer, and the content type classification of the embedding service.
Python strings are modelled as lists of characters, machine integers as
Nat, Redis hashes as association lists, and fallible code as Option or
Except values.
-/

namespace SearchDir

/-- A file path, as the list of its characters (a Python str). -/
abbrev Path := List Char

/-- Default action ids, from the environment defaults shared by the
file discovery service and the main service. -/
def ACTION_CREATE_ID : Nat := 1

/-- Default id of the update action. -/
def ACTION_UPDATE_ID : Nat := 2

/-- Default id of the delete action. -/
def ACTION_DELETE_ID : Nat := 3

/-- Value of a decimal digit character. -/
def charToDigit (c : Char) : Nat := c.toNat - 48

/-- Fuel driven loop rendering a nonnegative integer in decimal in front
of an accumulator; the fuel is structural so that the function reduces
inside the kernel. -/
def natToDecCharsAux : Nat → Nat → List Char → List Char
  | 0, _, acc => acc
  | fuel + 1, n, acc =>
    if n / 10 = 0 then Nat.digitChar (n % 10) :: acc
    else natToDecCharsAux fuel (n / 10) (Nat.digitChar (n % 10) :: acc)

/-- Python str(n) for a nonnegative integer n: decimal digits, most
significant first. -/
def natToDecChars (n : Nat) : List Char :=
  natToDecCharsAux (n + 1) n []

/-- Python int(s), restricted to nonempty all-digit strings, which is the
shape the producer ever emits; anything else raises ValueError, modelled
as none. -/
def decCharsToNat (cs : List Char) : Option Nat :=
  if !cs.isEmpty && cs.all Char.isDigit then
    some (Nat.ofDigits 10 ((cs.map charToDigit).reverse))
  else
    none

/-- Python str.split on a comma: the list of comma-free chunks, with empty
chunks kept, never empty as a list. -/
def splitOnComma : List Char → List (List Char)
  | [] => [[]]
  | c :: cs =>
    if c = ',' then [] :: splitOnComma cs
    else
      match splitOnComma cs with
      | [] => [[c]]
      | p :: ps => (c :: p) :: ps

/-- Producer side wire format of a queue message, the f-string
path,action pushed by queue_add_wrapper and queue_deletion_wrapper. -/
def encodeMessage (file_path : Path) (action : Nat) : List Char :=
  file_path ++ ',' :: natToDecChars action

/-- Consumer side parse of a queue message, from the consumer loop: split
on comma, component 0 is the filename, int of component 1 is the action.
Messages with no comma (IndexError) or a non numeric second component
(ValueError) would kill the consumer thread and are modelled as none. -/
def parseMessage (m : List Char) : Option (Path × Nat) :=
  match splitOnComma m with
  | p0 :: p1 :: _ => (decCharsToNat p1).map (fun a => (p0, a))
  | _ => none

/-- The Redis metadata hash, mapping a path to the last stored mtime,
as an association list. -/
abbrev Store := List (Path × Nat)

/-- Redis hget on the metadata hash. -/
def hget : Store → Path → Option Nat
  | [], _ => none
  | (k, v) :: rest, p => if k = p then some v else hget rest p

/-- Redis hset on the metadata hash: overwrite the field in place or
append a fresh one. -/
def hset : Store → Path → Nat → Store
  | [], p, m => [(p, m)]
  | (k, v) :: rest, p, m => if k = p then (p, m) :: rest else (k, v) :: hset rest p m

/-- Redis hdel on the metadata hash: remove every binding of the field. -/
def hdel : Store → Path → Store
  | [], _ => []
  | (k, v) :: rest, p => if k = p then hdel rest p else (k, v) :: hdel rest p

/-- Ghost log entry recording one successful push onto the work queue,
together with the file mtime that was read when the push happened. -/
inductive HistEv
  | cu (p : Path) (mtime : Nat)
  | del (p : Path)
deriving DecidableEq

/-- State of the file discovery service: the metadata hash, the queue
contents in arrival order, and a ghost log of successful enqueues with
the most recent entry first. The ghost log is pure instrumentation: it
records exactly the lpush calls the code performs and is read by no
branch of the code. -/
structure DetectorState where
  store : Store
  queue : List (List Char)
  hist : List HistEv
deriving DecidableEq

/-- Embedding of queue_add_wrapper from the file discovery router.
mtimeNow is the result of os.path.getmtime, none when the file vanished
(FileNotFoundError), in which case the event is skipped. Otherwise the
dedup rule runs: skip when the stored mtime equals the current one, else
hset the new mtime and lpush the path,action message. -/
def queue_add_wrapper (st : DetectorState) (file_path : Path) (action : Nat)
    (mtimeNow : Option Nat) : DetectorState :=
  match mtimeNow with
  | none => st
  | some file_mtime =>
    match hget st.store file_path with
    | some last_known_mtime =>
      if file_mtime = last_known_mtime then st
      else
        { store := hset st.store file_path file_mtime
          queue := st.queue ++ [encodeMessage file_path action]
          hist := HistEv.cu file_path file_mtime :: st.hist }
    | none =>
      { store := hset st.store file_path file_mtime
        queue := st.queue ++ [encodeMessage file_path action]
        hist := HistEv.cu file_path file_mtime :: st.hist }

/-- Embedding of queue_deletion_wrapper: unconditionally hdel the
metadata entry and push a delete message. -/
def queue_deletion_wrapper (st : DetectorState) (file_path : Path) : DetectorState :=
  { store := hdel st.store file_path
    queue := st.queue ++ [encodeMessage file_path ACTION_DELETE_ID]
    hist := HistEv.del file_path :: st.hist }

/-- One observed filesystem happening handled by the detector: a
create or update candidate with the mtime the detector would read, or a
deletion. -/
inductive DetectorOp
  | candidate (p : Path) (a : Nat) (mtimeNow : Option Nat)
  | deletion (p : Path)

/-- Dispatch of one detector operation. -/
def detectorStep (st : DetectorState) : DetectorOp → DetectorState
  | DetectorOp.candidate p a mt => queue_add_wrapper st p a mt
  | DetectorOp.deletion p => queue_deletion_wrapper st p

/-- Detector run from the empty initial state. -/
def runDetector (ops : List DetectorOp) : DetectorState :=
  ops.foldl detectorStep ⟨[], [], []⟩

/-- Repeated create or update candidates for one fixed path whose on disk
mtime does not change, with arbitrary action ids. -/
def iterateAdds (st : DetectorState) (p : Path) (mt : Option Nat) (acts : List Nat) :
    DetectorState :=
  acts.foldl (fun s a => queue_add_wrapper s p a mt) st

/-- Spec side reading of the ghost log: the modification time at which an
event was last successfully enqueued for a path; a later delete removes
the entry. The log stores the most recent entry first. -/
def lastEnqueuedMtime : List HistEv → Path → Option Nat
  | [], _ => none
  | HistEv.cu q m :: rest, p => if q = p then some m else lastEnqueuedMtime rest p
  | HistEv.del q :: rest, p => if q = p then none else lastEnqueuedMtime rest p

/-- Outcome of one index_processor call, as seen by the consumer loop:
success, a RuntimeError (non 200 embedding service response), or a
requests ConnectionError. -/
inductive IndexOutcome
  | ok
  | runtimeError
  | connectionError
deriving DecidableEq

/-- State of the batch consumer of the main service: the accumulated
batch index_files, the server_io_success flag, and the queue contents in
arrival order, the head being what brpop returns next. -/
structure ConsumerState where
  indexFiles : List Path
  serverIoSuccess : Bool
  queue : List (List Char)
deriving DecidableEq

/-- Observable happenings of one consumer iteration, in program order:
a brpop (with the message it returned, none on timeout), a remove_file
call, an index_processor call with its outcome, and the backoff sleep. -/
inductive ConsumerEv
  | popped (m : Option (List Char))
  | removed (f : Path)
  | indexed (batch : List Path) (r : IndexOutcome)
  | slept
deriving DecidableEq

/-- The batch as it stands after the event handling of one iteration: a
create or update action appends the filename, anything else leaves the
batch alone. -/
def accumulateFiles (st : ConsumerState) : Option (Path × Nat) → List Path
  | some (f, a) =>
    if a = ACTION_CREATE_ID ∨ a = ACTION_UPDATE_ID then st.indexFiles ++ [f]
    else st.indexFiles
  | none => st.indexFiles

/-- The remove_file call of one iteration: the delete action applies it
immediately, in the same iteration, before any flush logic runs. -/
def deleteEvents : Option (Path × Nat) → List ConsumerEv
  | some (f, a) =>
    if a = ACTION_CREATE_ID ∨ a = ACTION_UPDATE_ID then []
    else if a = ACTION_DELETE_ID then [ConsumerEv.removed f]
    else []
  | none => []

/-- Body of one consumer iteration after the pop phase: fa holds the
parsed filename and action (none when no message was obtained), and tr
the events of the pop phase. Create and update actions append to the
batch, the delete action calls remove_file immediately, and the flush
runs when the batch reached batchSize or no filename was obtained. -/
def consumerBody (batchSize : Nat) (idx : List Path → IndexOutcome)
    (st : ConsumerState) (fa : Option (Path × Nat)) (tr : List ConsumerEv) :
    ConsumerState × List ConsumerEv :=
  if batchSize ≤ (accumulateFiles st fa).length ∨ fa = none then
    if accumulateFiles st fa = [] then
      ({ st with indexFiles := accumulateFiles st fa }, tr ++ deleteEvents fa)
    else
      match idx (accumulateFiles st fa) with
      | IndexOutcome.ok =>
        ({ indexFiles := [], serverIoSuccess := true, queue := st.queue },
          (tr ++ deleteEvents fa) ++
            [ConsumerEv.indexed (accumulateFiles st fa) IndexOutcome.ok])
      | IndexOutcome.runtimeError =>
        ({ indexFiles := [], serverIoSuccess := true, queue := st.queue },
          (tr ++ deleteEvents fa) ++
            [ConsumerEv.indexed (accumulateFiles st fa) IndexOutcome.runtimeError])
      | IndexOutcome.connectionError =>
        ({ indexFiles := accumulateFiles st fa, serverIoSuccess := false, queue := st.queue },
          (tr ++ deleteEvents fa) ++
            [ConsumerEv.indexed (accumulateFiles st fa) IndexOutcome.connectionError,
              ConsumerEv.slept])
  else ({ st with indexFiles := accumulateFiles st fa }, tr ++ deleteEvents fa)

/-- One iteration of the endless consumer loop. While server_io_success
holds the queue is popped with a timeout (an empty queue models the
timeout, signalled by a nil element); a message that fails to parse kills
the thread, modelled as none. While server_io_success is false no pop
happens at all and the iteration goes straight to the flush logic. -/
def consumerStep (batchSize : Nat) (idx : List Path → IndexOutcome)
    (st : ConsumerState) : Option (ConsumerState × List ConsumerEv) :=
  if st.serverIoSuccess then
    match st.queue with
    | [] => some (consumerBody batchSize idx st none [ConsumerEv.popped none])
    | m :: rest =>
      match parseMessage m with
      | none => none
      | some fa =>
        some (consumerBody batchSize idx { st with queue := rest } (some fa)
          [ConsumerEv.popped (some m)])
  else some (consumerBody batchSize idx st none [])

/-- Initial consumer state: empty batch, server_io_success true, a given
queue content. -/
def initConsumer (q : List (List Char)) : ConsumerState :=
  { indexFiles := [], serverIoSuccess := true, queue := q }

/-- Run n consumer iterations, concatenating the observed events; none
when some iteration crashed on an unparsable message. -/
def runConsumer (batchSize : Nat) (idx : List Path → IndexOutcome) :
    Nat → ConsumerState → Option (ConsumerState × List ConsumerEv)
  | 0, st => some (st, [])
  | Nat.succ n, st =>
    match consumerStep batchSize idx st with
    | none => none
    | some (st1, tr) =>
      match runConsumer batchSize idx n st1 with
      | none => none
      | some (st2, tr2) => some (st2, tr ++ tr2)

/-- The batches passed to index_processor in an event trace, in order. -/
def indexedCalls (tr : List ConsumerEv) : List (List Path) :=
  tr.filterMap fun e =>
    match e with
    | ConsumerEv.indexed b _ => some b
    | _ => none

/-- Consumer states reachable from the initial state with a given batch
size, indexer behaviour and starting queue. -/
inductive ConsumerReachable (batchSize : Nat) (idx : List Path → IndexOutcome)
    (q0 : List (List Char)) : ConsumerState → Prop
  | init : ConsumerReachable batchSize idx q0 (initConsumer q0)
  | step {st st1 : ConsumerState} {tr : List ConsumerEv} :
      ConsumerReachable batchSize idx q0 st →
      consumerStep batchSize idx st = some (st1, tr) →
      ConsumerReachable batchSize idx q0 st1

/-- Inductive invariant of the consumer loop: the batch never exceeds the
batch size, it is strictly below it whenever another pop may happen, and
a pending retry always has a nonempty batch. -/
abbrev ConsumerInv (batchSize : Nat) (st : ConsumerState) : Prop :=
  st.indexFiles.length ≤ batchSize ∧
    (st.serverIoSuccess = true → st.indexFiles.length < batchSize) ∧
    (st.serverIoSuccess = false → st.indexFiles ≠ [])

namespace SHA256

/-- Word modulus: 2 to the 32. -/
def M32 : Nat := 4294967296

/-- Bitwise complement within 32 bits. -/
def not32 (x : Nat) : Nat := x ^^^ (M32 - 1)

/-- Right rotation of a 32 bit word. -/
def rotr (k x : Nat) : Nat := ((x >>> k) ||| (x <<< (32 - k))) % M32

/-- The 64 round constants of FIPS 180-4, written in decimal. -/
def K : List Nat :=
  [1116352408, 1899447441, 3049323471, 3921009573, 961987163,
   1508970993, 2453635748, 2870763221, 3624381080, 310598401,
   607225278, 1426881987, 1925078388, 2162078206, 2614888103,
   3248222580, 3835390401, 4022224774, 264347078, 604807628,
   770255983, 1249150122, 1555081692, 1996064986, 2554220882,
   2821834349, 2952996808, 3210313671, 3336571891, 3584528711,
   113926993, 338241895, 666307205, 773529912, 1294757372,
   1396182291, 1695183700, 1986661051, 2177026350, 2456956037,
   2730485921, 2820302411, 3259730800, 3345764771, 3516065817,
   3600352804, 4094571909, 275423344, 430227734, 506948616,
   659060556, 883997877, 958139571, 1322822218, 1537002063,
   1747873779, 1955562222, 2024104815, 2227730452, 2361852424,
   2428436474, 2756734187, 3204031479, 3329325298]

/-- Initial hash state of FIPS 180-4, written in decimal. -/
def initH : List Nat :=
  [1779033703, 3144134277, 1013904242, 2773480762,
   1359893119, 2600822924, 528734635, 1541459225]

/-- Big endian eight byte encoding of the bit length. -/
def lenBytes (n : Nat) : List Nat :=
  (List.range 8).map fun i => (n >>> (8 * (7 - i))) % 256

/-- Merkle Damgard padding: a 0x80 byte, zeros up to 56 mod 64, then the
bit length. -/
def pad (msg : List Nat) : List Nat :=
  msg ++ 0x80 :: List.replicate ((64 - ((msg.length + 9) % 64)) % 64) 0 ++ lenBytes (8 * msg.length)

/-- Fuel driven split of a byte list into 64 byte blocks. -/
def blocksAux : Nat → List Nat → List (List Nat)
  | 0, _ => []
  | fuel + 1, l => if l = [] then [] else l.take 64 :: blocksAux fuel (l.drop 64)

/-- Split a padded message into its 64 byte blocks. -/
def blocks (l : List Nat) : List (List Nat) := blocksAux (l.length + 1) l

/-- The 16 big endian words of one 64 byte block. -/
def toWords (b : List Nat) : List Nat :=
  (List.range 16).map fun i =>
    b.getD (4 * i) 0 * 16777216 + b.getD (4 * i + 1) 0 * 65536 +
      b.getD (4 * i + 2) 0 * 256 + b.getD (4 * i + 3) 0

/-- Lowercase sigma 0. -/
def smallSigma0 (x : Nat) : Nat := rotr 7 x ^^^ rotr 18 x ^^^ (x >>> 3)

/-- Lowercase sigma 1. -/
def smallSigma1 (x : Nat) : Nat := rotr 17 x ^^^ rotr 19 x ^^^ (x >>> 10)

/-- Uppercase sigma 0. -/
def bigSigma0 (x : Nat) : Nat := rotr 2 x ^^^ rotr 13 x ^^^ rotr 22 x

/-- Uppercase sigma 1. -/
def bigSigma1 (x : Nat) : Nat := rotr 6 x ^^^ rotr 11 x ^^^ rotr 25 x

/-- Message schedule: extend the 16 block words to 64. -/
def schedule (w16 : List Nat) : List Nat :=
  (List.range 48).foldl
    (fun w _ =>
      let n := w.length
      w ++ [(smallSigma1 (w.getD (n - 2) 0) + w.getD (n - 7) 0 +
        smallSigma0 (w.getD (n - 15) 0) + w.getD (n - 16) 0) % M32])
    w16

/-- Working state of the compression loop. -/
abbrev Regs := Nat × Nat × Nat × Nat × Nat × Nat × Nat × Nat

/-- One compression round. -/
def roundStep (s : Regs) (kw : Nat × Nat) : Regs :=
  let (a, b, c, d, e, f, g, h) := s
  let (ki, wi) := kw
  let t1 := (h + bigSigma1 e + ((e &&& f) ^^^ (not32 e &&& g)) + ki + wi) % M32
  let t2 := (bigSigma0 a + ((a &&& b) ^^^ (a &&& c) ^^^ (b &&& c))) % M32
  ((t1 + t2) % M32, a, b, c, (d + t1) % M32, e, f, g)

/-- Compress one 64 byte block into the 8 word hash state. -/
def compress (hv : List Nat) (block : List Nat) : List Nat :=
  let w := schedule (toWords block)
  let s0 : Regs :=
    (hv.getD 0 0, hv.getD 1 0, hv.getD 2 0, hv.getD 3 0,
      hv.getD 4 0, hv.getD 5 0, hv.getD 6 0, hv.getD 7 0)
  let r := (K.zip w).foldl roundStep s0
  let (a, b, c, d, e, f, g, h) := r
  List.zipWith (fun x y => (x + y) % M32) hv [a, b, c, d, e, f, g, h]

/-- SHA-256 of a byte list, as 8 words of 32 bits. -/
def hash (msg : List Nat) : List Nat := (blocks (pad msg)).foldl compress initH

/-- Lowercase hex rendering of one 32 bit word. -/
def wordHex (x : Nat) : List Char :=
  (List.range 8).map fun i => Nat.digitChar ((x >>> (4 * (7 - i))) % 16)

end SHA256

/-- Python hashlib sha256(data).hexdigest(): 64 lowercase hex characters. -/
def sha256hexdigest (data : List Nat) : List Char :=
  ((SHA256.hash data).map SHA256.wordHex).flatten

/-- UTF-8 bytes of a Python str, as produced by path.encode(). -/
def utf8Bytes (s : String) : List Nat :=
  s.toUTF8.toList.map UInt8.toNat

/-- Canonical text form produced by str(UUID(hex=h)) on a 32 hex digit
token: groups of 8, 4, 4, 4 and 12 characters joined by hyphens. -/
def uuidCanonical (h : List Char) : List Char :=
  h.take 8 ++ '-' :: (h.drop 8).take 4 ++ '-' :: (h.drop 12).take 4 ++
    '-' :: (h.drop 16).take 4 ++ '-' :: h.drop 20

/-- Record identifier computed inside index_processor for every uploaded
point: str(UUID(hex=sha256(path.encode()).hexdigest()[:32])), transcribed
from the upload_points call. -/
def indexPointId (path : String) : List Char :=
  uuidCanonical ((sha256hexdigest (utf8Bytes path)).take 32)

/-- Record identifier computed inside remove_file, transcribed separately
from its own file_id line. -/
def removeFileId (file_path : String) : List Char :=
  uuidCanonical ((sha256hexdigest (utf8Bytes file_path)).take 32)

/-- A qdrant point as built by index_processor: the identifier, the
embedding vector (kept abstract, it is never inspected), and the path
payload. -/
structure UploadPoint (E : Type) where
  id : List Char
  vector : E
  payloadPath : String

/-- The point index_processor builds for one processed (path, embedding)
pair. -/
def indexPoint (E : Type) (path : String) (emb : E) : UploadPoint E :=
  { id := indexPointId path, vector := emb, payloadPath := path }

/-- Python substring test needle in hay, for list-of-character strings:
here the needle is always nonempty. -/
def startsWithChars : List Char → List Char → Bool
  | [], _ => true
  | _ :: _, [] => false
  | c :: cs, d :: ds => c = d && startsWithChars cs ds

/-- Membership of a nonempty needle anywhere in the haystack. -/
def pyIn (needle : List Char) : List Char → Bool
  | [] => needle.isEmpty
  | c :: cs => startsWithChars needle (c :: cs) || pyIn needle cs

/-- Result of the classification loop of post_file_embeddings: text
files, image files (contents kept as raw byte lists, the utf-8 decode
with errors ignored is irrelevant here), and unprocessed filenames, each
in arrival order. -/
structure ClassifyResult where
  texts : List (Path × List Nat)
  images : List (Path × List Nat)
  unprocessed : List Path
deriving DecidableEq

/-- The classification loop of post_file_embeddings in the embedding
service. guess models mimetypes.guess_file_type on the filename. When it
returns none the code only logs a warning and then still evaluates the
Python expression testing text in mime_type with mime_type = None, which
raises TypeError and aborts the whole request; that abort is modelled as
Except.error. A determined type that is neither text nor image goes to
unprocessed_files. -/
def classifyFiles (guess : Path → Option (List Char)) :
    List (Path × List Nat) → Except Unit ClassifyResult
  | [] => Except.ok { texts := [], images := [], unprocessed := [] }
  | (filename, content) :: rest =>
    match guess filename with
    | none => Except.error ()
    | some mime_type =>
      match classifyFiles guess rest with
      | Except.error e => Except.error e
      | Except.ok r =>
        if pyIn ['t', 'e', 'x', 't'] mime_type then
          Except.ok { r with texts := (filename, content) :: r.texts }
        else if pyIn ['i', 'm', 'a', 'g', 'e'] mime_type then
          Except.ok { r with images := (filename, content) :: r.images }
        else
          Except.ok { r with unprocessed := filename :: r.unprocessed }

end SearchDir

namespace SearchDir

/-! ### Helper lemmas on decimal rendering and comma splitting -/

theorem digitChar_facts :
    ∀ d : Nat, d < 10 →
      charToDigit (Nat.digitChar d) = d ∧ (Nat.digitChar d).isDigit = true ∧
        Nat.digitChar d ≠ ',' := by
  decide

theorem natToDecCharsAux_eq_digits (fuel : Nat) :
    ∀ n acc, n ≠ 0 → n < 10 ^ fuel →
      natToDecCharsAux fuel n acc = ((Nat.digits 10 n).map Nat.digitChar).reverse ++ acc := by
  induction fuel with
  | zero =>
    intro n acc h0 hlt
    simp only [pow_zero, Nat.lt_one_iff] at hlt
    exact absurd hlt h0
  | succ fuel ih =>
    intro n acc h0 hlt
    rw [natToDecCharsAux, Nat.digits_def' (by norm_num : 1 < 10) (Nat.pos_of_ne_zero h0)]
    by_cases hq : n / 10 = 0
    · rw [if_pos hq, hq]
      simp
    · rw [if_neg hq, ih (n / 10) _ hq]
      · simp
      · rw [Nat.div_lt_iff_lt_mul (by norm_num : 0 < 10)]
        calc n < 10 ^ (fuel + 1) := hlt
        _ = 10 ^ fuel * 10 := by ring

theorem natToDecChars_eq_digits (n : Nat) :
    natToDecChars n =
      if n = 0 then ['0'] else ((Nat.digits 10 n).map Nat.digitChar).reverse := by
  by_cases h : n = 0
  · subst h; rfl
  · rw [if_neg h]
    have hlt : n < 10 ^ (n + 1) :=
      lt_of_lt_of_le (Nat.lt_pow_self (by norm_num) n)
        (Nat.pow_le_pow_right (by norm_num) (Nat.le_succ n))
    rw [natToDecChars, natToDecCharsAux_eq_digits (n + 1) n [] h hlt]
    simp

theorem mem_natToDecChars_facts (n : Nat) :
    ∀ c ∈ natToDecChars n, c.isDigit = true ∧ c ≠ ',' := by
  rw [natToDecChars_eq_digits]
  by_cases h : n = 0
  · rw [if_pos h]; decide
  · rw [if_neg h]
    intro c hc
    rw [List.mem_reverse, List.mem_map] at hc
    obtain ⟨d, hd, rfl⟩ := hc
    have hd10 : d < 10 := Nat.digits_lt_base (by norm_num) hd
    exact ⟨(digitChar_facts d hd10).2.1, (digitChar_facts d hd10).2.2⟩

theorem decCharsToNat_natToDecChars (n : Nat) :
    decCharsToNat (natToDecChars n) = some n := by
  by_cases h : n = 0
  · subst h; decide
  · rw [natToDecChars_eq_digits, if_neg h]
    have hne : Nat.digits 10 n ≠ [] := Nat.digits_ne_nil_iff_ne_zero.mpr h
    have hlt : ∀ d ∈ Nat.digits 10 n, d < 10 := fun d hd =>
      Nat.digits_lt_base (by norm_num) hd
    unfold decCharsToNat
    have hcond : (!(((Nat.digits 10 n).map Nat.digitChar).reverse.isEmpty) &&
        ((Nat.digits 10 n).map Nat.digitChar).reverse.all Char.isDigit) = true := by
      rw [Bool.and_eq_true, Bool.not_eq_true', List.isEmpty_eq_false_iff_exists_mem,
        List.all_eq_true]
      constructor
      · obtain ⟨d, hd⟩ := List.exists_mem_of_ne_nil _ hne
        exact ⟨Nat.digitChar d, by rw [List.mem_reverse, List.mem_map]; exact ⟨d, hd, rfl⟩⟩
      · intro c hc
        rw [List.mem_reverse, List.mem_map] at hc
        obtain ⟨d, hd, rfl⟩ := hc
        exact (digitChar_facts d (hlt d hd)).2.1
    rw [if_pos hcond]
    congr 1
    rw [List.map_reverse, List.reverse_reverse, List.map_map]
    have hmap : (Nat.digits 10 n).map (charToDigit ∘ Nat.digitChar) = Nat.digits 10 n := by
      have hpt : ∀ d ∈ Nat.digits 10 n, (charToDigit ∘ Nat.digitChar) d = d := fun d hd =>
        (digitChar_facts d (hlt d hd)).1
      rw [List.map_congr_left hpt]
      exact List.map_id _
    rw [hmap, Nat.ofDigits_digits]

theorem splitOnComma_no_comma (cs : List Char) (h : ∀ c ∈ cs, c ≠ ',') :
    splitOnComma cs = [cs] := by
  induction cs with
  | nil => rfl
  | cons c cs ih =>
    have hc : c ≠ ',' := h c (List.mem_cons_self c cs)
    have ih' := ih fun d hd => h d (List.mem_cons_of_mem c hd)
    simp [splitOnComma, hc, ih']

theorem splitOnComma_append (p rest : List Char) (h : ∀ c ∈ p, c ≠ ',') :
    splitOnComma (p ++ ',' :: rest) = p :: splitOnComma rest := by
  induction p with
  | nil => simp [splitOnComma]
  | cons c cs ih =>
    have hc : c ≠ ',' := h c (List.mem_cons_self c cs)
    have ih' := ih fun d hd => h d (List.mem_cons_of_mem c hd)
    simp only [List.cons_append, splitOnComma, if_neg hc, List.append_eq, ih']

/-! ### C10 — queue message encoding round trip -/

/-- C10 counterexample: the comma-joined wire format is ambiguous for a
path that itself contains a comma. The path a,2 enqueued with action 1
travels as a,2,1 and is parsed back as path a with action 2 — neither
the path nor the action survives. -/
theorem queue_roundtrip_counterexample :
    parseMessage (encodeMessage ['a', ',', '2'] ACTION_CREATE_ID) ≠
      some ((['a', ',', '2'] : Path), ACTION_CREATE_ID) := by
  decide

/-- C10 (amended): for every path that contains no comma and every
action, the consumer parse of the producer encoding recovers exactly the
original path and action. -/
theorem queue_roundtrip (p : Path) (a : Nat) (h : ',' ∉ p) :
    parseMessage (encodeMessage p a) = some (p, a) := by
  unfold encodeMessage parseMessage
  rw [splitOnComma_append p _ fun c hc => by rintro rfl; exact h hc]
  rw [splitOnComma_no_comma (natToDecChars a) fun c hc =>
    (mem_natToDecChars_facts a c hc).2]
  simp [decCharsToNat_natToDecChars]

/-- Witness for C10: the round trip evaluated on the comma-free path ab
with action 2. -/
theorem queue_roundtrip_witness :
    (',' ∉ (['a', 'b'] : Path)) ∧
      parseMessage (encodeMessage ['a', 'b'] 2) = some ((['a', 'b'] : Path), 2) :=
  ⟨by decide, queue_roundtrip ['a', 'b'] 2 (by decide)⟩

/-! ### C1 — identity scheme -/

/-- C1: the record identifier is a pure function of the path alone:
computing it twice yields the same value, the point built by
index_processor carries an id independent of the embedding vector (hence
of the file content), and the id used by the upsert equals the id used by
remove_file. -/
theorem identity_scheme_stable :
    ∀ (path : String) (E : Type) (e1 e2 : E),
      indexPointId path = indexPointId path ∧
        (indexPoint E path e1).id = (indexPoint E path e2).id ∧
        indexPointId path = removeFileId path :=
  fun _ _ _ _ => ⟨rfl, rfl, rfl⟩

/-! ### C7 — content type classification -/

/-- C7: the code diverges from the claim. A filename whose MIME type
mimetypes.guess_file_type cannot determine is only logged, the missing
skip lets the Python test text in None raise TypeError and the whole
classification aborts (first conjunct); a filename with a determined but
unsupported type is indeed skipped into unprocessed_files (second
conjunct). -/
theorem classify_unknown_mime_type_crashes :
    classifyFiles (fun _ => none) [(['R', 'E', 'A', 'D', 'M', 'E'], [])] =
        Except.error () ∧
      classifyFiles
          (fun p =>
            if p = ['a', '.', 'p', 'd', 'f'] then
              some ['a', 'p', 'p', 'l', 'i', 'c', 'a', 't', 'i', 'o', 'n', '/', 'p', 'd', 'f']
            else none)
          [(['a', '.', 'p', 'd', 'f'], [])] =
        Except.ok { texts := [], images := [], unprocessed := [['a', '.', 'p', 'd', 'f']] } :=
  ⟨rfl, rfl⟩

/-! ### Helper lemmas on the metadata hash -/

theorem hget_hset (s : Store) (p : Path) (m : Nat) (q : Path) :
    hget (hset s p m) q = if p = q then some m else hget s q := by
  induction s with
  | nil => simp [hset, hget]
  | cons kv rest ih =>
    obtain ⟨k, v⟩ := kv
    by_cases hk : k = p <;> by_cases hq : p = q <;>
      simp_all [hset, hget]

theorem hget_hdel (s : Store) (p q : Path) :
    hget (hdel s p) q = if p = q then none else hget s q := by
  induction s with
  | nil => simp [hdel, hget]
  | cons kv rest ih =>
    obtain ⟨k, v⟩ := kv
    by_cases hk : k = p <;> by_cases hq : p = q <;>
      simp_all [hdel, hget]

/-! ### Helper lemmas on the change detector -/

theorem queue_add_wrapper_noop (st : DetectorState) (p : Path) (a : Nat) (m : Nat)
    (h : hget st.store p = some m) : queue_add_wrapper st p a (some m) = st := by
  unfold queue_add_wrapper
  rw [h]
  simp

theorem queue_add_wrapper_accept (st : DetectorState) (p : Path) (a : Nat) (m : Nat)
    (h : hget st.store p ≠ some m) :
    queue_add_wrapper st p a (some m) =
      { store := hset st.store p m
        queue := st.queue ++ [encodeMessage p a]
        hist := HistEv.cu p m :: st.hist } := by
  unfold queue_add_wrapper
  cases hg : hget st.store p with
  | none => rfl
  | some last =>
    have hne : m ≠ last := fun he => h (by rw [hg, he])
    simp [hne]

theorem queue_add_wrapper_hget_self (st : DetectorState) (p : Path) (a : Nat) (m : Nat) :
    hget (queue_add_wrapper st p a (some m)).store p = some m := by
  by_cases h : hget st.store p = some m
  · rw [queue_add_wrapper_noop st p a m h, h]
  · rw [queue_add_wrapper_accept st p a m h]
    simp [hget_hset]

theorem queue_add_wrapper_queue_le (st : DetectorState) (p : Path) (a : Nat)
    (mt : Option Nat) :
    (queue_add_wrapper st p a mt).queue.length ≤ st.queue.length + 1 := by
  cases mt with
  | none => exact Nat.le_succ_of_le (Nat.le_refl _)
  | some m =>
    by_cases h : hget st.store p = some m
    · rw [queue_add_wrapper_noop st p a m h]
      exact Nat.le_succ_of_le (Nat.le_refl _)
    · rw [queue_add_wrapper_accept st p a m h]
      simp

theorem iterateAdds_noop (st : DetectorState) (p : Path) (m : Nat) (acts : List Nat)
    (h : hget st.store p = some m) : iterateAdds st p (some m) acts = st := by
  induction acts with
  | nil => rfl
  | cons a rest ih =>
    show iterateAdds (queue_add_wrapper st p a (some m)) p (some m) rest = st
    rw [queue_add_wrapper_noop st p a m h]
    exact ih

/-! ### C2 — the dedup rule of the change detector -/

/-- C2: for a create or update candidate observed at mtime m, if the
stored mtime is absent or different the new mtime is stored and exactly
one event is enqueued; if it is equal the whole state is untouched; and
however many candidates arrive while the on disk mtime stays m, at most
one event is enqueued. -/
theorem dedup_rule (st : DetectorState) (p : Path) (a : Nat) (m : Nat) :
    (hget st.store p ≠ some m →
        (queue_add_wrapper st p a (some m)).store = hset st.store p m ∧
          hget (queue_add_wrapper st p a (some m)).store p = some m ∧
          (queue_add_wrapper st p a (some m)).queue = st.queue ++ [encodeMessage p a]) ∧
      (hget st.store p = some m → queue_add_wrapper st p a (some m) = st) ∧
      ∀ acts : List Nat,
        (iterateAdds st p (some m) acts).queue.length ≤ st.queue.length + 1 := by
  refine ⟨fun h => ?_, fun h => queue_add_wrapper_noop st p a m h, fun acts => ?_⟩
  · rw [queue_add_wrapper_accept st p a m h]
    exact ⟨rfl, by simp [hget_hset], rfl⟩
  · cases acts with
    | nil => exact Nat.le_succ_of_le (Nat.le_refl _)
    | cons a0 rest =>
      show (iterateAdds (queue_add_wrapper st p a0 (some m)) p (some m) rest).queue.length ≤
        st.queue.length + 1
      rw [iterateAdds_noop _ p m rest (queue_add_wrapper_hget_self st p a0 m)]
      exact queue_add_wrapper_queue_le st p a0 (some m)

/-- Witness for C2: the three conjuncts evaluated on concrete states —
an empty store accepts the candidate, a store already holding mtime 5
skips it, and three repeated candidates enqueue at most one message. -/
theorem dedup_rule_witness :
    (hget (DetectorState.mk [] [] []).store ['a'] ≠ some 5 ∧
        (queue_add_wrapper ⟨[], [], []⟩ ['a'] 1 (some 5)).store = hset [] ['a'] 5 ∧
          hget (queue_add_wrapper ⟨[], [], []⟩ ['a'] 1 (some 5)).store ['a'] = some 5 ∧
          (queue_add_wrapper ⟨[], [], []⟩ ['a'] 1 (some 5)).queue =
            [] ++ [encodeMessage ['a'] 1]) ∧
      (hget (DetectorState.mk [(['a'], 5)] [] []).store ['a'] = some 5 ∧
        queue_add_wrapper ⟨[(['a'], 5)], [], []⟩ ['a'] 2 (some 5) = ⟨[(['a'], 5)], [], []⟩) ∧
      (iterateAdds ⟨[], [], []⟩ ['a'] (some 5) [1, 2, 2]).queue.length ≤
        ([] : List (List Char)).length + 1 :=
  ⟨⟨by decide, (dedup_rule ⟨[], [], []⟩ ['a'] 1 5).1 (by decide)⟩,
    ⟨by decide, (dedup_rule ⟨[(['a'], 5)], [], []⟩ ['a'] 2 5).2.1 (by decide)⟩,
    (dedup_rule ⟨[], [], []⟩ ['a'] 0 5).2.2 [1, 2, 2]⟩

/-! ### C9 — stored mtime reflects the last successful enqueue -/

theorem detectorStep_preserves (st : DetectorState) (op : DetectorOp)
    (h : ∀ q, hget st.store q = lastEnqueuedMtime st.hist q) :
    ∀ q, hget (detectorStep st op).store q = lastEnqueuedMtime (detectorStep st op).hist q := by
  cases op with
  | candidate p a mt =>
    cases mt with
    | none => exact h
    | some m =>
      by_cases hm : hget st.store p = some m
      · rw [detectorStep, queue_add_wrapper_noop st p a m hm]
        exact h
      · rw [detectorStep, queue_add_wrapper_accept st p a m hm]
        intro q
        show hget (hset st.store p m) q = lastEnqueuedMtime (HistEv.cu p m :: st.hist) q
        rw [hget_hset, lastEnqueuedMtime]
        by_cases hq : p = q
        · rw [if_pos hq, if_pos hq]
        · rw [if_neg hq, if_neg hq, h q]
  | deletion p =>
    intro q
    show hget (hdel st.store p) q = lastEnqueuedMtime (HistEv.del p :: st.hist) q
    rw [hget_hdel, lastEnqueuedMtime]
    by_cases hq : p = q
    · rw [if_pos hq, if_pos hq]
    · rw [if_neg hq, if_neg hq, h q]

/-- C9: in every state the detector can reach, the stored mtime of every
path present in the metadata hash equals the modification time read when
an event for that path was last successfully enqueued, entries being
created or updated exactly on an accepted change and removed on delete
(both sides read off the same run, so the equality also forces absence
after a delete and before any acceptance). -/
theorem metadata_mtime_invariant (ops : List DetectorOp) (p : Path) :
    hget (runDetector ops).store p = lastEnqueuedMtime (runDetector ops).hist p := by
  suffices h : ∀ st : DetectorState,
      (∀ q, hget st.store q = lastEnqueuedMtime st.hist q) →
        ∀ q, hget (ops.foldl detectorStep st).store q =
          lastEnqueuedMtime (ops.foldl detectorStep st).hist q from
    h ⟨[], [], []⟩ (fun _ => rfl) p
  induction ops with
  | nil => exact fun st h q => h q
  | cons op rest ih =>
    exact fun st h q => ih (detectorStep st op) (detectorStep_preserves st op h) q

/-! ### Helper lemmas on the batch consumer -/

theorem deleteEvents_no_popped (fa : Option (Path × Nat)) (m : Option (List Char)) :
    ConsumerEv.popped m ∉ deleteEvents fa := by
  cases fa with
  | none => simp [deleteEvents]
  | some fa0 =>
    obtain ⟨f, a⟩ := fa0
    simp only [deleteEvents]
    split_ifs <;> simp

theorem deleteEvents_no_indexed (fa : Option (Path × Nat)) :
    ∀ b r, ConsumerEv.indexed b r ∉ deleteEvents fa := by
  intro b r
  cases fa with
  | none => simp [deleteEvents]
  | some fa0 =>
    obtain ⟨f, a⟩ := fa0
    simp only [deleteEvents]
    split_ifs <;> simp

theorem consumerBody_queue (bs : Nat) (idx : List Path → IndexOutcome)
    (st : ConsumerState) (fa : Option (Path × Nat)) (tr : List ConsumerEv) :
    (consumerBody bs idx st fa tr).1.queue = st.queue := by
  unfold consumerBody
  split
  · split
    · rfl
    · cases idx (accumulateFiles st fa) <;> rfl
  · rfl

theorem consumerBody_tr_mono (bs : Nat) (idx : List Path → IndexOutcome)
    (st : ConsumerState) (fa : Option (Path × Nat)) (tr : List ConsumerEv)
    (e : ConsumerEv) (h : e ∈ tr) : e ∈ (consumerBody bs idx st fa tr).2 := by
  unfold consumerBody
  split
  · split
    · simp [List.mem_append, h]
    · cases idx (accumulateFiles st fa) <;> simp [List.mem_append, h]
  · simp [List.mem_append, h]

theorem consumerBody_popped (bs : Nat) (idx : List Path → IndexOutcome)
    (st : ConsumerState) (fa : Option (Path × Nat)) (tr : List ConsumerEv)
    (m : Option (List Char)) (h : ConsumerEv.popped m ∈ (consumerBody bs idx st fa tr).2) :
    ConsumerEv.popped m ∈ tr := by
  have hde := deleteEvents_no_popped fa m
  unfold consumerBody at h
  split at h
  · split at h
    · simp_all [List.mem_append]
    · split at h <;> simp_all [List.mem_append]
  · simp_all [List.mem_append]

theorem consumerBody_conn (bs : Nat) (idx : List Path → IndexOutcome)
    (st : ConsumerState) (fa : Option (Path × Nat)) (tr : List ConsumerEv) (b : List Path)
    (htr : ∀ b0 r0, ConsumerEv.indexed b0 r0 ∉ tr)
    (h : ConsumerEv.indexed b IndexOutcome.connectionError ∈ (consumerBody bs idx st fa tr).2) :
    (consumerBody bs idx st fa tr).1.indexFiles = b ∧
      (consumerBody bs idx st fa tr).1.serverIoSuccess = false ∧
      ConsumerEv.slept ∈ (consumerBody bs idx st fa tr).2 := by
  have hde := deleteEvents_no_indexed fa
  simp only [consumerBody] at h ⊢
  by_cases hcond : bs ≤ (accumulateFiles st fa).length ∨ fa = none
  · rw [if_pos hcond] at h ⊢
    by_cases hnil : accumulateFiles st fa = []
    · rw [if_pos hnil] at h
      simp [List.mem_append, htr, hde] at h
    · rw [if_neg hnil] at h ⊢
      cases hidx : idx (accumulateFiles st fa) <;> rw [hidx] at h
      · simp [List.mem_append, htr, hde] at h
      · simp [List.mem_append, htr, hde] at h
      · simp [List.mem_append, htr, hde] at h
        subst h
        simp [List.mem_append]
  · rw [if_neg hcond] at h
    simp [List.mem_append, htr, hde] at h

theorem consumerBody_runtime (bs : Nat) (idx : List Path → IndexOutcome)
    (st : ConsumerState) (fa : Option (Path × Nat)) (tr : List ConsumerEv) (b : List Path)
    (htr : ∀ b0 r0, ConsumerEv.indexed b0 r0 ∉ tr)
    (h : ConsumerEv.indexed b IndexOutcome.runtimeError ∈ (consumerBody bs idx st fa tr).2) :
    (consumerBody bs idx st fa tr).1.indexFiles = [] ∧
      (consumerBody bs idx st fa tr).1.serverIoSuccess = true := by
  have hde := deleteEvents_no_indexed fa
  simp only [consumerBody] at h ⊢
  by_cases hcond : bs ≤ (accumulateFiles st fa).length ∨ fa = none
  · rw [if_pos hcond] at h ⊢
    by_cases hnil : accumulateFiles st fa = []
    · rw [if_pos hnil] at h
      simp [List.mem_append, htr, hde] at h
    · rw [if_neg hnil] at h ⊢
      cases hidx : idx (accumulateFiles st fa) <;> rw [hidx] at h
      · simp
      · simp
      · simp [List.mem_append, htr, hde] at h
  · rw [if_neg hcond] at h
    simp [List.mem_append, htr, hde] at h

theorem consumerBody_flush_none (bs : Nat) (idx : List Path → IndexOutcome)
    (st : ConsumerState) (tr : List ConsumerEv) (hne : st.indexFiles ≠ []) :
    ConsumerEv.indexed st.indexFiles (idx st.indexFiles) ∈
      (consumerBody bs idx st none tr).2 := by
  simp only [consumerBody, accumulateFiles, deleteEvents, or_true, if_true, List.append_nil]
  rw [if_neg hne]
  cases hidx : idx st.indexFiles <;> simp [List.mem_append]

theorem consumerBody_delete (bs : Nat) (idx : List Path → IndexOutcome)
    (st : ConsumerState) (f : Path) (tr : List ConsumerEv)
    (hlen : st.indexFiles.length < bs) :
    consumerBody bs idx st (some (f, ACTION_DELETE_ID)) tr =
      (st, tr ++ [ConsumerEv.removed f]) := by
  have h1 : ¬(ACTION_DELETE_ID = ACTION_CREATE_ID ∨ ACTION_DELETE_ID = ACTION_UPDATE_ID) := by
    decide
  have hcond : ¬(bs ≤ st.indexFiles.length ∨
      (some (f, ACTION_DELETE_ID) : Option (Path × Nat)) = none) := by
    push_neg
    exact ⟨hlen, by simp⟩
  simp only [consumerBody, accumulateFiles, deleteEvents, if_neg h1, if_neg hcond]
  rfl

theorem consumerBody_inv (bs : Nat) (idx : List Path → IndexOutcome)
    (st : ConsumerState) (fa : Option (Path × Nat)) (tr : List ConsumerEv)
    (hbs : 1 ≤ bs) (hle : st.indexFiles.length ≤ bs)
    (hsome : fa.isSome = true → st.indexFiles.length < bs)
    (hne : st.serverIoSuccess = false → st.indexFiles ≠ []) :
    ConsumerInv bs (consumerBody bs idx st fa tr).1 := by
  have hfile : (accumulateFiles st fa).length ≤ bs ∧
      (st.indexFiles ≠ [] → accumulateFiles st fa ≠ []) := by
    cases fa with
    | none => exact ⟨hle, fun h => h⟩
    | some fa0 =>
      obtain ⟨f, a⟩ := fa0
      have hlt := hsome rfl
      constructor
      · simp only [accumulateFiles]
        split
        · simp only [List.length_append, List.length_cons, List.length_nil]
          omega
        · exact hle
      · intro hne0
        simp only [accumulateFiles]
        split
        · simp
        · exact hne0
  unfold consumerBody
  split
  · split
    · rename_i hcond hnil
      refine ⟨hfile.1, fun _ => ?_, fun hf => hfile.2 (hne hf)⟩
      show (accumulateFiles st fa).length < bs
      rw [hnil]
      exact hbs
    · cases idx (accumulateFiles st fa) with
      | ok => exact ⟨Nat.zero_le bs, fun _ => hbs, fun hf => by simp at hf⟩
      | runtimeError => exact ⟨Nat.zero_le bs, fun _ => hbs, fun hf => by simp at hf⟩
      | connectionError =>
        rename_i hnil
        exact ⟨hfile.1, fun hf => by simp at hf, fun _ => hnil⟩
  · rename_i hcond
    push_neg at hcond
    exact ⟨Nat.le_of_lt hcond.1, fun _ => hcond.1, fun hf => hfile.2 (hne hf)⟩

theorem consumerStep_sio_false (bs : Nat) (idx : List Path → IndexOutcome)
    (st : ConsumerState) (hs : st.serverIoSuccess = false) :
    consumerStep bs idx st = some (consumerBody bs idx st none []) := by
  simp [consumerStep, hs]

theorem consumerStep_inversion (bs : Nat) (idx : List Path → IndexOutcome)
    (st st1 : ConsumerState) (tr : List ConsumerEv)
    (h : consumerStep bs idx st = some (st1, tr)) :
    (st.serverIoSuccess = true ∧ st.queue = [] ∧
        (st1, tr) = consumerBody bs idx st none [ConsumerEv.popped none]) ∨
      (∃ m rest fa, st.serverIoSuccess = true ∧ st.queue = m :: rest ∧
        parseMessage m = some fa ∧
        (st1, tr) = consumerBody bs idx { st with queue := rest } (some fa)
          [ConsumerEv.popped (some m)]) ∨
      (st.serverIoSuccess = false ∧ (st1, tr) = consumerBody bs idx st none []) := by
  by_cases hs : st.serverIoSuccess = true
  case neg =>
    have hs' : st.serverIoSuccess = false := by
      revert hs
      cases st.serverIoSuccess <;> simp
    rw [consumerStep_sio_false bs idx st hs'] at h
    exact Or.inr (Or.inr ⟨hs', (Option.some.inj h).symm⟩)
  case pos =>
    cases hq : st.queue with
    | nil =>
      have hstep : consumerStep bs idx st =
          some (consumerBody bs idx st none [ConsumerEv.popped none]) := by
        unfold consumerStep
        rw [if_pos hs, hq]
      rw [hstep] at h
      exact Or.inl ⟨hs, rfl, (Option.some.inj h).symm⟩
    | cons m rest =>
      cases hp : parseMessage m with
      | none =>
        have hstep : consumerStep bs idx st = none := by
          unfold consumerStep
          rw [if_pos hs, hq]
          show (match parseMessage m with
            | none => none
            | some fa =>
              some (consumerBody bs idx { st with queue := rest } (some fa)
                [ConsumerEv.popped (some m)])) = none
          rw [hp]
        rw [hstep] at h
        exact absurd h (by simp)
      | some fa =>
        have hstep : consumerStep bs idx st =
            some (consumerBody bs idx { st with queue := rest } (some fa)
              [ConsumerEv.popped (some m)]) := by
          unfold consumerStep
          rw [if_pos hs, hq]
          show (match parseMessage m with
            | none => none
            | some fa =>
              some (consumerBody bs idx { st with queue := rest } (some fa)
                [ConsumerEv.popped (some m)])) =
            some (consumerBody bs idx { st with queue := rest } (some fa)
              [ConsumerEv.popped (some m)])
          rw [hp]
        rw [hstep] at h
        exact Or.inr (Or.inl ⟨m, rest, fa, hs, rfl, hp, (Option.some.inj h).symm⟩)

theorem consumerStep_inv (bs : Nat) (idx : List Path → IndexOutcome)
    (st st1 : ConsumerState) (tr : List ConsumerEv) (hbs : 1 ≤ bs)
    (hinv : ConsumerInv bs st) (h : consumerStep bs idx st = some (st1, tr)) :
    ConsumerInv bs st1 := by
  obtain ⟨hA, hB, hC⟩ := hinv
  rcases consumerStep_inversion bs idx st st1 tr h with
    ⟨hs, hq, heq⟩ | ⟨m, rest, fa, hs, hq, hp, heq⟩ | ⟨hs, heq⟩
  · have hst1 : st1 = (consumerBody bs idx st none [ConsumerEv.popped none]).1 :=
      congrArg Prod.fst heq
    rw [hst1]
    exact consumerBody_inv bs idx st none [ConsumerEv.popped none] hbs hA
      (fun hfo => by simp at hfo) (fun hf => by rw [hf] at hs; exact absurd hs (by decide))
  · have hst1 : st1 =
        (consumerBody bs idx { st with queue := rest } (some fa)
          [ConsumerEv.popped (some m)]).1 :=
      congrArg Prod.fst heq
    rw [hst1]
    exact consumerBody_inv bs idx { st with queue := rest } (some fa)
      [ConsumerEv.popped (some m)] hbs hA (fun _ => hB hs)
      (fun hf => by rw [show ({ st with queue := rest } : ConsumerState).serverIoSuccess =
        st.serverIoSuccess from rfl, hs] at hf; exact absurd hf (by decide))
  · have hst1 : st1 = (consumerBody bs idx st none []).1 := congrArg Prod.fst heq
    rw [hst1]
    exact consumerBody_inv bs idx st none [] hbs hA
      (fun hfo => by simp at hfo) (fun _ => hC hs)

theorem consumerStep_pops (bs : Nat) (idx : List Path → IndexOutcome)
    (st st2 : ConsumerState) (tr2 : List ConsumerEv)
    (hs : st.serverIoSuccess = true) (h : consumerStep bs idx st = some (st2, tr2)) :
    ∃ m, ConsumerEv.popped m ∈ tr2 := by
  rcases consumerStep_inversion bs idx st st2 tr2 h with
    ⟨_, _, heq⟩ | ⟨m, rest, fa, _, _, _, heq⟩ | ⟨hsf, _⟩
  · have htr2 : tr2 = (consumerBody bs idx st none [ConsumerEv.popped none]).2 :=
      congrArg Prod.snd heq
    exact ⟨none, htr2 ▸ consumerBody_tr_mono bs idx st none [ConsumerEv.popped none]
      (ConsumerEv.popped none) (by simp)⟩
  · have htr2 : tr2 = (consumerBody bs idx { st with queue := rest } (some fa)
        [ConsumerEv.popped (some m)]).2 := congrArg Prod.snd heq
    exact ⟨some m, htr2 ▸ consumerBody_tr_mono bs idx { st with queue := rest } (some fa)
      [ConsumerEv.popped (some m)] (ConsumerEv.popped (some m)) (by simp)⟩
  · rw [hsf] at hs
    exact absurd hs (by decide)

/-! ### C3 — flush triggers of the batch consumer -/

/-- C3: an Indexer call happens in an iteration exactly when the batch
after the event handling is nonempty and either reached batchSize or no
filename was obtained from the pop (the nil timeout signal); and on the
two concrete scenarios of the spec, with batch size 3, events a, b, c
already queued produce exactly one Indexer call with batch a, b, c in 4
iterations, while events a, b followed by a timed out pop produce exactly
one call with batch a, b in 3 iterations. -/
theorem batch_flush_triggers :
    (∀ (bs : Nat) (idx : List Path → IndexOutcome) (st : ConsumerState)
        (fa : Option (Path × Nat)) (tr : List ConsumerEv),
      (∀ b r, ConsumerEv.indexed b r ∉ tr) →
        ((∃ b r, ConsumerEv.indexed b r ∈ (consumerBody bs idx st fa tr).2) ↔
          accumulateFiles st fa ≠ [] ∧
            (bs ≤ (accumulateFiles st fa).length ∨ fa = none))) ∧
      ((runConsumer 3 (fun _ => IndexOutcome.ok) 4
          (initConsumer [encodeMessage ['a'] ACTION_CREATE_ID,
            encodeMessage ['b'] ACTION_CREATE_ID,
            encodeMessage ['c'] ACTION_UPDATE_ID])).map (fun r => indexedCalls r.2) =
        some [[['a'], ['b'], ['c']]]) ∧
      ((runConsumer 3 (fun _ => IndexOutcome.ok) 3
          (initConsumer [encodeMessage ['a'] ACTION_CREATE_ID,
            encodeMessage ['b'] ACTION_CREATE_ID])).map (fun r => indexedCalls r.2) =
        some [[['a'], ['b']]]) := by
  refine ⟨?_, by decide, by decide⟩
  intro bs idx st fa tr htr
  have hde := deleteEvents_no_indexed fa
  simp only [consumerBody]
  by_cases hcond : bs ≤ (accumulateFiles st fa).length ∨ fa = none
  · rw [if_pos hcond]
    by_cases hnil : accumulateFiles st fa = []
    · rw [if_pos hnil]
      simp [List.mem_append, htr, hde, hnil]
    · rw [if_neg hnil]
      cases hidx : idx (accumulateFiles st fa) <;>
        simp [List.mem_append, htr, hde, hnil, hcond]
  · rw [if_neg hcond]
    constructor
    · rintro ⟨b, r, hb⟩
      simp only [List.mem_append] at hb
      rcases hb with hb | hb
      · exact absurd hb (htr b r)
      · exact absurd hb (hde b r)
    · rintro ⟨hnil2, hcond2⟩
      exact absurd hcond2 hcond

/-- Witness for C3: the flush characterisation evaluated on a concrete
iteration — batch size 1, an empty starting batch and a popped create
event for path a. -/
theorem batch_flush_triggers_witness :
    (∃ b r, ConsumerEv.indexed b r ∈
        (consumerBody 1 (fun _ => IndexOutcome.ok) (initConsumer [])
          (some (['a'], 1)) []).2) ↔
      accumulateFiles (initConsumer []) (some (['a'], 1)) ≠ [] ∧
        (1 ≤ (accumulateFiles (initConsumer []) (some (['a'], 1))).length ∨
          (some (['a'], 1) : Option (Path × Nat)) = none) :=
  batch_flush_triggers.1 1 (fun _ => IndexOutcome.ok) (initConsumer [])
    (some (['a'], 1)) [] (by simp)

/-! ### C4 — transient connectivity errors retry the same batch -/

/-- C4: whenever an iteration flushes a batch b and the Indexer fails
with a connectivity error, the resulting state still holds exactly b,
server_io_success is false and the backoff sleep happened; and from any
state with server_io_success false the next iteration performs no pop,
leaves the queue alone and flushes the very same batch again. -/
theorem transient_error_retries_same_batch (bs : Nat)
    (idx : List Path → IndexOutcome) (st : ConsumerState) :
    (∀ st1 tr b, consumerStep bs idx st = some (st1, tr) →
        ConsumerEv.indexed b IndexOutcome.connectionError ∈ tr →
        st1.indexFiles = b ∧ st1.serverIoSuccess = false ∧ ConsumerEv.slept ∈ tr) ∧
      (st.serverIoSuccess = false →
        ∃ st1 tr, consumerStep bs idx st = some (st1, tr) ∧
          (∀ m, ConsumerEv.popped m ∉ tr) ∧ st1.queue = st.queue ∧
          (st.indexFiles ≠ [] →
            ConsumerEv.indexed st.indexFiles (idx st.indexFiles) ∈ tr)) := by
  constructor
  · intro st1 tr b h hmem
    rcases consumerStep_inversion bs idx st st1 tr h with
      ⟨hs, hq, heq⟩ | ⟨m, rest, fa, hs, hq, hp, heq⟩ | ⟨hs, heq⟩
    · have hst1 : st1 = (consumerBody bs idx st none [ConsumerEv.popped none]).1 :=
        congrArg Prod.fst heq
      have htr2 : tr = (consumerBody bs idx st none [ConsumerEv.popped none]).2 :=
        congrArg Prod.snd heq
      rw [htr2] at hmem
      rw [hst1, htr2]
      exact consumerBody_conn bs idx st none [ConsumerEv.popped none] b (by simp) hmem
    · have hst1 : st1 = (consumerBody bs idx { st with queue := rest } (some fa)
          [ConsumerEv.popped (some m)]).1 := congrArg Prod.fst heq
      have htr2 : tr = (consumerBody bs idx { st with queue := rest } (some fa)
          [ConsumerEv.popped (some m)]).2 := congrArg Prod.snd heq
      rw [htr2] at hmem
      rw [hst1, htr2]
      exact consumerBody_conn bs idx { st with queue := rest } (some fa)
        [ConsumerEv.popped (some m)] b (by simp) hmem
    · have hst1 : st1 = (consumerBody bs idx st none []).1 := congrArg Prod.fst heq
      have htr2 : tr = (consumerBody bs idx st none []).2 := congrArg Prod.snd heq
      rw [htr2] at hmem
      rw [hst1, htr2]
      exact consumerBody_conn bs idx st none [] b (by simp) hmem
  · intro hs
    refine ⟨(consumerBody bs idx st none []).1, (consumerBody bs idx st none []).2,
      consumerStep_sio_false bs idx st hs, ?_, consumerBody_queue bs idx st none [], ?_⟩
    · intro m hm
      exact absurd (consumerBody_popped bs idx st none [] m hm) (by simp)
    · intro hne
      exact consumerBody_flush_none bs idx st [] hne

/-- Witness for C4: both conjuncts evaluated on the concrete retry state
holding batch a with server_io_success already false, batch size 1, and
an Indexer that keeps failing with connectivity errors. -/
theorem transient_error_retries_same_batch_witness :
    ((ConsumerState.mk [['a']] false [] : ConsumerState).indexFiles = [['a']] ∧
        (ConsumerState.mk [['a']] false [] : ConsumerState).serverIoSuccess = false ∧
        ConsumerEv.slept ∈
          [ConsumerEv.indexed [['a']] IndexOutcome.connectionError, ConsumerEv.slept]) ∧
      (∃ st1 tr,
        consumerStep 1 (fun _ => IndexOutcome.connectionError) ⟨[['a']], false, []⟩ =
            some (st1, tr) ∧
          (∀ m, ConsumerEv.popped m ∉ tr) ∧
          st1.queue = (ConsumerState.mk [['a']] false [] : ConsumerState).queue ∧
          ((ConsumerState.mk [['a']] false [] : ConsumerState).indexFiles ≠ [] →
            ConsumerEv.indexed
                (ConsumerState.mk [['a']] false [] : ConsumerState).indexFiles
                IndexOutcome.connectionError ∈ tr)) :=
  ⟨(transient_error_retries_same_batch 1 (fun _ => IndexOutcome.connectionError)
      ⟨[['a']], false, []⟩).1 ⟨[['a']], false, []⟩
      [ConsumerEv.indexed [['a']] IndexOutcome.connectionError, ConsumerEv.slept] [['a']]
      (by decide) (by decide),
    (transient_error_retries_same_batch 1 (fun _ => IndexOutcome.connectionError)
      ⟨[['a']], false, []⟩).2 rfl⟩

/-! ### C5 — permanent errors drop the batch -/

/-- C5: whenever an iteration flushes a batch and the Indexer fails with
a RuntimeError, the batch is cleared, server_io_success is set back to
true, and the following iteration performs a queue pop again — the
poisoned batch is never retried. -/
theorem permanent_error_drops_batch (bs : Nat) (idx : List Path → IndexOutcome)
    (st : ConsumerState) :
    ∀ st1 tr b, consumerStep bs idx st = some (st1, tr) →
      ConsumerEv.indexed b IndexOutcome.runtimeError ∈ tr →
      st1.indexFiles = [] ∧ st1.serverIoSuccess = true ∧
        ∀ st2 tr2, consumerStep bs idx st1 = some (st2, tr2) →
          ∃ m, ConsumerEv.popped m ∈ tr2 := by
  intro st1 tr b h hmem
  have hmain : st1.indexFiles = [] ∧ st1.serverIoSuccess = true := by
    rcases consumerStep_inversion bs idx st st1 tr h with
      ⟨hs, hq, heq⟩ | ⟨m, rest, fa, hs, hq, hp, heq⟩ | ⟨hs, heq⟩
    · have hst1 : st1 = (consumerBody bs idx st none [ConsumerEv.popped none]).1 :=
        congrArg Prod.fst heq
      have htr2 : tr = (consumerBody bs idx st none [ConsumerEv.popped none]).2 :=
        congrArg Prod.snd heq
      rw [htr2] at hmem
      rw [hst1]
      exact consumerBody_runtime bs idx st none [ConsumerEv.popped none] b (by simp) hmem
    · have hst1 : st1 = (consumerBody bs idx { st with queue := rest } (some fa)
          [ConsumerEv.popped (some m)]).1 := congrArg Prod.fst heq
      have htr2 : tr = (consumerBody bs idx { st with queue := rest } (some fa)
          [ConsumerEv.popped (some m)]).2 := congrArg Prod.snd heq
      rw [htr2] at hmem
      rw [hst1]
      exact consumerBody_runtime bs idx { st with queue := rest } (some fa)
        [ConsumerEv.popped (some m)] b (by simp) hmem
    · have hst1 : st1 = (consumerBody bs idx st none []).1 := congrArg Prod.fst heq
      have htr2 : tr = (consumerBody bs idx st none []).2 := congrArg Prod.snd heq
      rw [htr2] at hmem
      rw [hst1]
      exact consumerBody_runtime bs idx st none [] b (by simp) hmem
  exact ⟨hmain.1, hmain.2, fun st2 tr2 h2 =>
    consumerStep_pops bs idx st1 st2 tr2 hmain.2 h2⟩

/-- Witness for C5: the theorem applied to the concrete run in which a
create event for path a is popped, flushed at batch size 1 and rejected
with a RuntimeError, followed by the next iteration popping again. -/
theorem permanent_error_drops_batch_witness :
    (ConsumerState.mk [] true [] : ConsumerState).indexFiles = [] ∧
      (ConsumerState.mk [] true [] : ConsumerState).serverIoSuccess = true ∧
      ∃ m, ConsumerEv.popped m ∈ [ConsumerEv.popped (none : Option (List Char))] :=
  have h := permanent_error_drops_batch 1 (fun _ => IndexOutcome.runtimeError)
    (initConsumer [encodeMessage ['a'] ACTION_CREATE_ID]) ⟨[], true, []⟩
    [ConsumerEv.popped (some (encodeMessage ['a'] ACTION_CREATE_ID)),
      ConsumerEv.indexed [['a']] IndexOutcome.runtimeError] [['a']]
    (by decide) (by decide)
  ⟨h.1, h.2.1, h.2.2 ⟨[], true, []⟩ [ConsumerEv.popped none] (by decide)⟩

/-! ### C6 — deletes bypass batching -/

/-- C6: when the popped message parses to a delete action and the batch
is below the batch size (as in every reachable popping state), the whole
iteration is exactly one pop followed by one immediate remove_file call:
the batch is untouched and no Indexer call happens, whatever the batch
size, queue or pending timeout. -/
theorem delete_bypasses_batch (bs : Nat) (idx : List Path → IndexOutcome)
    (st : ConsumerState) (m : List Char) (f : Path) (rest : List (List Char))
    (hs : st.serverIoSuccess = true) (hq : st.queue = m :: rest)
    (hp : parseMessage m = some (f, ACTION_DELETE_ID))
    (hlen : st.indexFiles.length < bs) :
    consumerStep bs idx st =
        some ({ st with queue := rest },
          [ConsumerEv.popped (some m), ConsumerEv.removed f]) ∧
      ({ st with queue := rest } : ConsumerState).indexFiles = st.indexFiles ∧
      indexedCalls [ConsumerEv.popped (some m), ConsumerEv.removed f] = [] := by
  refine ⟨?_, rfl, rfl⟩
  unfold consumerStep
  rw [if_pos hs, hq]
  show (match parseMessage m with
    | none => none
    | some fa => some (consumerBody bs idx { st with queue := rest } (some fa)
        [ConsumerEv.popped (some m)])) = _
  rw [hp]
  show some (consumerBody bs idx { st with queue := rest } (some (f, ACTION_DELETE_ID))
    [ConsumerEv.popped (some m)]) = _
  rw [consumerBody_delete bs idx { st with queue := rest } f
    [ConsumerEv.popped (some m)] hlen]
  rfl

/-- Witness for C6: a delete for path b popped while the batch holds path
a, with batch size 2. -/
theorem delete_bypasses_batch_witness :
    consumerStep 2 (fun _ => IndexOutcome.ok)
          ⟨[['a']], true, [encodeMessage ['b'] ACTION_DELETE_ID]⟩ =
        some (({ indexFiles := [['a']], serverIoSuccess := true, queue := [] } :
            ConsumerState),
          [ConsumerEv.popped (some (encodeMessage ['b'] ACTION_DELETE_ID)),
            ConsumerEv.removed ['b']]) ∧
      ({ indexFiles := [['a']], serverIoSuccess := true, queue := [] } :
          ConsumerState).indexFiles =
        (ConsumerState.mk [['a']] true [encodeMessage ['b'] ACTION_DELETE_ID] :
          ConsumerState).indexFiles ∧
      indexedCalls [ConsumerEv.popped (some (encodeMessage ['b'] ACTION_DELETE_ID)),
        ConsumerEv.removed ['b']] = [] :=
  delete_bypasses_batch 2 (fun _ => IndexOutcome.ok)
    ⟨[['a']], true, [encodeMessage ['b'] ACTION_DELETE_ID]⟩
    (encodeMessage ['b'] ACTION_DELETE_ID) ['b'] [] rfl rfl (by decide) (by decide)

/-! ### C8 — the batch never exceeds the batch size -/

/-- C8: in every state reachable by the consumer loop from its initial
state, the accumulated batch holds at most batchSize paths; every
transition of the loop preserves the bound. -/
theorem batch_size_invariant (bs : Nat) (idx : List Path → IndexOutcome)
    (q0 : List (List Char)) (st : ConsumerState) (hbs : 1 ≤ bs)
    (hr : ConsumerReachable bs idx q0 st) : st.indexFiles.length ≤ bs := by
  have hinv : ConsumerInv bs st := by
    induction hr with
    | init =>
      exact ⟨Nat.zero_le bs, fun _ => hbs, fun hf => by simp [initConsumer] at hf⟩
    | step hr0 hstep ih =>
      exact consumerStep_inv bs idx _ _ _ hbs ih hstep
  exact hinv.1

/-- Witness for C8: the bound evaluated at the initial state with batch
size 1. -/
theorem batch_size_invariant_witness :
    (1 ≤ 1) ∧ (initConsumer []).indexFiles.length ≤ 1 :=
  ⟨Nat.le_refl 1,
    batch_size_invariant 1 (fun _ => IndexOutcome.ok) [] (initConsumer [])
      (Nat.le_refl 1) ConsumerReachable.init⟩

end SearchDir
